import Mathlib

/-!
Verification of the tree-building core of `gen_repo_tree.py`.

The filesystem is modelled as an inductive tree `FS`: a node is a plain
file, a symlink (never followed, so its target is not modelled), a
readable directory with a list of named children, a directory whose
enumeration raises `PermissionError`, or a directory whose enumeration
raises some other `OSError` (e.g. the path disappeared).  `os.scandir`
with `follow_symlinks=False` reports a symlink as "not a directory", so
directory-ness and symlink-ness are mutually exclusive in the model.

Paths are plain strings; root paths are taken as already absolute (the
program always passes `os.getcwd()`), so `os.path.abspath` is the
identity in the model and `os.path.basename` is the text after the last
slash.
-/

/-- One filesystem node, as the walk observes it. -/
inductive FS where
  | file : FS
  | link : FS
  | dir : List (String × FS) → FS
  | dirDenied : FS
  | dirError : FS

/-- One scanned child, mirroring the tuple
`(e.name, e.is_dir(follow_symlinks=False), e.is_symlink(), e.path)`
built in `list_entries`; `full_path` is `none` only for the synthetic
permission-denied sentinel. -/
structure Entry where
  name : String
  is_dir : Bool
  is_link : Bool
  full_path : Option String
deriving Repr, DecidableEq

/-- The literal sentinel name used by `list_entries`. -/
def sentinelName : String := "[permission denied]"

/-- The synthetic child returned when `os.scandir` raises
`PermissionError`: `("[permission denied]", False, False, None)`. -/
def permSentinel : Entry := ⟨sentinelName, false, false, none⟩

/-- Whether `e.is_dir(follow_symlinks=False)` reports true: the node is
an actual directory, readable or not. -/
def FS.isDirNode : FS → Bool
  | .dir _ => true
  | .dirDenied => true
  | .dirError => true
  | _ => false

/-- Whether `e.is_symlink()` reports true. -/
def FS.isLinkNode : FS → Bool
  | .link => true
  | _ => false

/-- Model of `os.path.join(p, n)` for a non-absolute member name `n`:
insert a slash unless `p` is empty or already ends with one. -/
def path_join (p n : String) : String :=
  if p = "" then n
  else if p.data.getLast? = some '/' then p ++ n
  else p ++ "/" ++ n

/-- Model of `os.path.basename` on an absolute path: the text after the
last slash. -/
def basename (p : String) : String :=
  String.mk ((p.data.reverse.takeWhile (fun c => c ≠ '/')).reverse)

/-- The `Entry` scandir yields for child `c` of the directory at `p`. -/
def child_entry (p : String) (c : String × FS) : Entry :=
  ⟨c.1, c.2.isDirNode, c.2.isLinkNode, some (path_join p c.1)⟩

/-- A scanned child paired with its filesystem node, so that the walk
can recurse into it.  The sentinel is paired with `FS.file`, a dummy
that is never recursed into because the sentinel is not a directory. -/
def to_pair (p : String) (c : String × FS) : Entry × FS :=
  (child_entry p c, c.2)

/-- Model of `str.lower` on one character (ASCII case mapping). -/
def pyLowerChar (c : Char) : Char :=
  if 65 ≤ c.toNat ∧ c.toNat ≤ 90 then Char.ofNat (c.toNat + 32) else c

/-- Model of `x.lower()` as the lowercased character sequence; Python
compares strings by code points, which is exactly the lexicographic
order on `List Char`. -/
def pyLower (s : String) : List Char := s.data.map pyLowerChar

/-- Python's sort key `(0 if x[1] else 1, x[0].lower())` compared as a
tuple: directory rank first, then case-insensitive name. -/
def rank (e : Entry) : Nat := if e.is_dir then 0 else 1

/-- The total preorder induced by the sort key: rank strictly first,
case-folded name as tie-break, exactly Python's tuple comparison. -/
def entRel (a b : Entry × FS) : Prop :=
  rank a.1 < rank b.1 ∨ (rank a.1 = rank b.1 ∧ pyLower a.1.name ≤ pyLower b.1.name)

instance : DecidableRel entRel := fun a b => by
  unfold entRel; infer_instance

instance : IsTotal (Entry × FS) entRel where
  total a b := by
    rcases Nat.lt_trichotomy (rank a.1) (rank b.1) with h | h | h
    · exact Or.inl (Or.inl h)
    · rcases le_total (pyLower a.1.name) (pyLower b.1.name) with hs | hs
      · exact Or.inl (Or.inr ⟨h, hs⟩)
      · exact Or.inr (Or.inr ⟨h.symm, hs⟩)
    · exact Or.inr (Or.inl h)

instance : IsTrans (Entry × FS) entRel where
  trans a b c hab hbc := by
    rcases hab with h1 | ⟨h1, s1⟩
    · rcases hbc with h2 | ⟨h2, _⟩
      · exact Or.inl (h1.trans h2)
      · exact Or.inl (h2 ▸ h1)
    · rcases hbc with h2 | ⟨h2, s2⟩
      · exact Or.inl (h1 ▸ h2)
      · exact Or.inr ⟨h1.trans h2, s1.trans s2⟩

/-- The stable sort `entries.sort(key=lambda x: (0 if x[1] else 1,
x[0].lower()))`; Python's sort is stable, and so is
`List.insertionSort`, so the two agree on every input. -/
def sortEntries (l : List (Entry × FS)) : List (Entry × FS) :=
  List.insertionSort entRel l

/-- Model of `list_entries(path)`: scan the directory, recover from
`PermissionError` with the sentinel child, let any other error
propagate, and sort the survivors. -/
def list_entries (node : FS) (p : String) : Except String (List (Entry × FS)) :=
  match node with
  | .dir cs => .ok (sortEntries (cs.map (to_pair p)))
  | .dirDenied => .ok [(permSentinel, .file)]
  | .dirError => .error "OSError"
  | .file => .error "NotADirectoryError"
  | .link => .error "NotADirectoryError"

/-- The guard `max_depth is not None and depth >= max_depth`. -/
def depth_reached (md : Option Nat) (depth : Nat) : Bool :=
  match md with
  | none => false
  | some m => depth ≥ m

/-- The decorated name rendered for one child: append `"/"` for real
directories (not the sentinel), then `" -> (symlink)"` for symlinks. -/
def displayName (e : Entry) : String :=
  let d := e.name
  let d := if e.is_dir ∧ e.name ≠ sentinelName then d ++ "/" else d
  if e.is_link then d ++ " -> (symlink)" else d

mutual

/-- Custom structural size used as the termination measure of the
walk. -/
def FS.sz : FS → Nat
  | .dir cs => 1 + FS.szList cs
  | .dirDenied => 2
  | .file => 0
  | .link => 0
  | .dirError => 0

/-- Size of a child list (each child counts its size plus one). -/
def FS.szList : List (String × FS) → Nat
  | [] => 0
  | c :: cs => c.2.sz + 1 + FS.szList cs

end

/-- Size of a scanned-children list, matching `FS.szList` through
`to_pair`. -/
def szPairs : List (Entry × FS) → Nat
  | [] => 0
  | c :: l => c.2.sz + 1 + szPairs l

theorem szPairs_map_to_pair (p : String) (cs : List (String × FS)) :
    szPairs (cs.map (to_pair p)) = FS.szList cs := by
  induction cs with
  | nil => rfl
  | cons c cs ih => simp [szPairs, FS.szList, to_pair, ih]

theorem szPairs_perm {l₁ l₂ : List (Entry × FS)} (h : l₁.Perm l₂) :
    szPairs l₁ = szPairs l₂ := by
  induction h with
  | nil => rfl
  | cons x _ ih => simp [szPairs, ih]
  | swap x y l => simp [szPairs]; omega
  | trans _ _ ih₁ ih₂ => exact ih₁.trans ih₂

theorem szPairs_sortEntries (l : List (Entry × FS)) :
    szPairs (sortEntries l) = szPairs l :=
  szPairs_perm (List.perm_insertionSort entRel l)

theorem list_entries_sz {node : FS} {p : String} {l : List (Entry × FS)}
    (h : list_entries node p = .ok l) : szPairs l < node.sz := by
  cases node with
  | dir cs =>
    simp only [list_entries, Except.ok.injEq] at h
    subst h
    rw [szPairs_sortEntries, szPairs_map_to_pair]
    simp [FS.sz]
  | dirDenied =>
    simp only [list_entries, Except.ok.injEq] at h
    subst h
    simp [szPairs, FS.sz]
  | dirError => simp [list_entries] at h
  | file => simp [list_entries] at h
  | link => simp [list_entries] at h

mutual

/-- Model of the inner function `recurse(path, prefix_parts, depth)` of
`build_tree_lines`: stop when the depth limit is reached, list the
directory, then walk the sorted children; an uncaught enumeration
error propagates. -/
def recurse (md : Option Nat) (node : FS) (path : String)
    (pp : List String) (depth : Nat) : Except String (List String) :=
  if depth_reached md depth then .ok []
  else
    match h : list_entries node path with
    | .error msg => .error msg
    | .ok entries => recurse_entries md entries pp depth
termination_by node.sz
decreasing_by exact list_entries_sz h

/-- The `for idx, (name, is_dir, is_link, full_path) in enumerate(entries)`
loop body of `recurse`: emit one line per child and recurse into real
non-sentinel directories. -/
def recurse_entries (md : Option Nat) (l : List (Entry × FS))
    (pp : List String) (depth : Nat) : Except String (List String) :=
  match l with
  | [] => .ok []
  | (e, child) :: rest =>
    let is_last := rest.isEmpty
    let connector := if is_last then "└── " else "├── "
    let line := String.join pp ++ connector ++ displayName e
    let sub : Except String (List String) :=
      if e.is_dir = true ∧ e.full_path.isSome = true ∧ e.name ≠ sentinelName then
        recurse md child (e.full_path.getD "")
          (pp ++ [if is_last then "    " else "│   "]) (depth + 1)
      else .ok []
    match sub with
    | .error msg => .error msg
    | .ok sublines =>
      match recurse_entries md rest pp depth with
      | .error msg => .error msg
      | .ok taillines => .ok (line :: (sublines ++ taillines))
termination_by szPairs l
decreasing_by
  all_goals simp [szPairs]
  omega

end

/-- Model of `build_tree_lines(root_path, max_depth)`: the root line
followed by whatever the walk appends. -/
def build_tree_lines (root : FS) (root_path : String)
    (max_depth : Option Nat) : Except String (List String) :=
  let root_name := basename root_path
  match recurse max_depth root root_path [] 0 with
  | .error msg => .error msg
  | .ok ls => .ok ((root_name ++ "/") :: ls)

/-- Model of `write_output(lines, root_path)`: the artifact name
`f"{root_name} repo.txt"` and the exact text written,
`"\n".join(lines) + "\n"` (the file is opened with `newline="\n"`, so
no platform translation happens); the function returns the name. -/
def write_output (lines : List String) (root_path : String) : String × String :=
  let root_name := basename root_path
  let outfile := root_name ++ " repo.txt"
  (outfile, String.intercalate "\n" lines ++ "\n")

/-- Value of a digit run as Python `int()` accepts it after the first
digit: more digits, with single underscores allowed between digits. -/
def pyDigitsCont : List Char → Nat → Option Nat
  | [], acc => some acc
  | c :: cs, acc =>
    if c.isDigit then pyDigitsCont cs (acc * 10 + (c.toNat - 48))
    else if c = '_' then
      match cs with
      | [] => none
      | c2 :: cs2 =>
        if c2.isDigit then pyDigitsCont cs2 (acc * 10 + (c2.toNat - 48))
        else none
    else none

/-- A digit run per Python `int()`: at least one digit, underscores only
between digits. -/
def pyDigits : List Char → Option Nat
  | [] => none
  | c :: cs => if c.isDigit then pyDigitsCont cs (c.toNat - 48) else none

/-- Model of Python `int(s)` on the already-stripped text: optional
sign, then a digit run. -/
def pyInt (s : String) : Option Int :=
  match s.data with
  | '+' :: rest => (pyDigits rest).map Int.ofNat
  | '-' :: rest => (pyDigits rest).map (fun n => -(n : Int))
  | cs => (pyDigits cs).map Int.ofNat

/-- Result of `parse_depth`: the chosen limit and whether the
"Invalid depth. Using unlimited." warning was printed. -/
structure DepthResult where
  max_depth : Option Nat
  warned : Bool
deriving Repr, DecidableEq

/-- Model of Python `s.strip()` against the ASCII whitespace subset of
`str.isspace`. -/
def pyStrip (s : String) : String :=
  String.mk
    (((s.data.dropWhile Char.isWhitespace).reverse.dropWhile Char.isWhitespace).reverse)

/-- Model of `parse_depth(s)`: strip, blank means unlimited, a
non-negative integer is accepted, anything else (including a negative
number) warns and falls back to unlimited. -/
def parse_depth (s : String) : DepthResult :=
  let t := pyStrip s
  if t = "" then ⟨none, false⟩
  else
    match pyInt t with
    | some n => if n < 0 then ⟨none, true⟩ else ⟨some n.toNat, false⟩
    | none => ⟨none, true⟩


mutual

/-- A tree on which the walk cannot raise: no enumeration failure other
than `PermissionError` anywhere.  A sufficient condition for the walk
to succeed. -/
def FS.safe : FS → Bool
  | .dir cs => FS.safeList cs
  | .dirError => false
  | .file => true
  | .link => true
  | .dirDenied => true

/-- `FS.safe` for every child of a listing. -/
def FS.safeList : List (String × FS) → Bool
  | [] => true
  | c :: cs => c.2.safe && FS.safeList cs

end

/-- The indentation token one ancestor contributes, chosen by whether
that ancestor was the last sibling at its level (§4.1 of the spec). -/
def flagToken (b : Bool) : String := if b then "    " else "│   "

mutual

/-- Rendering as the spec phrases it: instead of carrying ready-made
prefix strings, carry the list of ancestor was-last flags and build
each line as prefix + connector + display name, where the prefix is
one token per ancestor.  Used to state the claim that the code's
prefix strings agree with this description. -/
def specRecurse (md : Option Nat) (node : FS) (path : String)
    (flags : List Bool) (depth : Nat) : Except String (List String) :=
  if depth_reached md depth then .ok []
  else
    match h : list_entries node path with
    | .error msg => .error msg
    | .ok entries => specEntries md entries flags depth
termination_by node.sz
decreasing_by exact list_entries_sz h

/-- Child loop of `specRecurse`. -/
def specEntries (md : Option Nat) (l : List (Entry × FS))
    (flags : List Bool) (depth : Nat) : Except String (List String) :=
  match l with
  | [] => .ok []
  | (e, child) :: rest =>
    let is_last := rest.isEmpty
    let line := String.join (flags.map flagToken) ++
      (if is_last then "└── " else "├── ") ++ displayName e
    let sub : Except String (List String) :=
      if e.is_dir = true ∧ e.full_path.isSome = true ∧ e.name ≠ sentinelName then
        specRecurse md child (e.full_path.getD "") (flags ++ [is_last]) (depth + 1)
      else .ok []
    match sub with
    | .error msg => .error msg
    | .ok sublines =>
      match specEntries md rest flags depth with
      | .error msg => .error msg
      | .ok taillines => .ok (line :: (sublines ++ taillines))
termination_by szPairs l
decreasing_by
  all_goals simp [szPairs]
  omega

end

/-- The lines a child list yields when the depth limit forbids any
further listing: exactly one line per child, in order. -/
def flatRender (pp : List String) : List (Entry × FS) → List String
  | [] => []
  | (e, _) :: rest =>
    (String.join pp ++ (if rest.isEmpty then "└── " else "├── ") ++ displayName e)
      :: flatRender pp rest

theorem recurse_eq (md : Option Nat) (node : FS) (path : String)
    (pp : List String) (depth : Nat) :
    recurse md node path pp depth =
      if depth_reached md depth then .ok []
      else
        match list_entries node path with
        | .error msg => .error msg
        | .ok entries => recurse_entries md entries pp depth := by
  rw [recurse]
  rcases list_entries node path with m | es <;> rfl

theorem recurse_entries_nil (md : Option Nat) (pp : List String) (depth : Nat) :
    recurse_entries md [] pp depth = .ok [] := by
  rw [recurse_entries]

theorem recurse_entries_cons (md : Option Nat) (e : Entry) (child : FS)
    (rest : List (Entry × FS)) (pp : List String) (depth : Nat) :
    recurse_entries md ((e, child) :: rest) pp depth =
      match
        (if e.is_dir = true ∧ e.full_path.isSome = true ∧ e.name ≠ sentinelName then
          recurse md child (e.full_path.getD "")
            (pp ++ [if rest.isEmpty then "    " else "│   "]) (depth + 1)
        else .ok []) with
      | .error msg => .error msg
      | .ok sublines =>
        match recurse_entries md rest pp depth with
        | .error msg => .error msg
        | .ok taillines =>
          .ok ((String.join pp ++ (if rest.isEmpty then "└── " else "├── ") ++ displayName e)
            :: (sublines ++ taillines)) := by
  rw [recurse_entries]

theorem specRecurse_eq (md : Option Nat) (node : FS) (path : String)
    (flags : List Bool) (depth : Nat) :
    specRecurse md node path flags depth =
      if depth_reached md depth then .ok []
      else
        match list_entries node path with
        | .error msg => .error msg
        | .ok entries => specEntries md entries flags depth := by
  rw [specRecurse]
  rcases list_entries node path with m | es <;> rfl

theorem specEntries_nil (md : Option Nat) (flags : List Bool) (depth : Nat) :
    specEntries md [] flags depth = .ok [] := by
  rw [specEntries]

theorem specEntries_cons (md : Option Nat) (e : Entry) (child : FS)
    (rest : List (Entry × FS)) (flags : List Bool) (depth : Nat) :
    specEntries md ((e, child) :: rest) flags depth =
      match
        (if e.is_dir = true ∧ e.full_path.isSome = true ∧ e.name ≠ sentinelName then
          specRecurse md child (e.full_path.getD "") (flags ++ [rest.isEmpty]) (depth + 1)
        else .ok []) with
      | .error msg => .error msg
      | .ok sublines =>
        match specEntries md rest flags depth with
        | .error msg => .error msg
        | .ok taillines =>
          .ok ((String.join (flags.map flagToken) ++
              (if rest.isEmpty then "└── " else "├── ") ++ displayName e)
            :: (sublines ++ taillines)) := by
  rw [specEntries]

theorem FS.sz_lt_of_mem {cs : List (String × FS)} {c : String × FS}
    (h : c ∈ cs) : c.2.sz < 1 + FS.szList cs := by
  induction cs with
  | nil => cases h
  | cons d ds ih =>
    rcases List.mem_cons.mp h with h | h
    · subst h
      simp [FS.szList]
      omega
    · have := ih h
      simp [FS.szList]
      omega

theorem FS.inductionOn {P : FS → Prop} (hfile : P .file) (hlink : P .link)
    (hden : P .dirDenied) (herr : P .dirError)
    (hdir : ∀ cs : List (String × FS), (∀ c ∈ cs, P c.2) → P (.dir cs)) :
    ∀ t : FS, P t
  | .file => hfile
  | .link => hlink
  | .dirDenied => hden
  | .dirError => herr
  | .dir cs => hdir cs (fun c hc => FS.inductionOn hfile hlink hden herr hdir c.2)
termination_by t => t.sz
decreasing_by
  have := FS.sz_lt_of_mem hc
  simp [FS.sz]
  omega

theorem displayName_permSentinel : displayName permSentinel = sentinelName := rfl

theorem recurse_dirDenied (md : Option Nat) (depth : Nat) (p : String)
    (pp : List String) (h : depth_reached md depth = false) :
    recurse md FS.dirDenied p pp depth =
      .ok [String.join pp ++ "└── " ++ sentinelName] := by
  rw [recurse_eq, h]
  simp only [Bool.false_eq_true, if_false, list_entries]
  rw [recurse_entries_cons]
  rw [if_neg (by simp [permSentinel])]
  rw [recurse_entries_nil]
  rfl

theorem recurse_entries_cons_noRec {e : Entry} {child : FS}
    (h : ¬(e.is_dir = true ∧ e.full_path.isSome = true ∧ e.name ≠ sentinelName))
    (md : Option Nat) (rest : List (Entry × FS)) (pp : List String) (depth : Nat) :
    recurse_entries md ((e, child) :: rest) pp depth =
      (recurse_entries md rest pp depth).map
        (fun tl =>
          (String.join pp ++ (if rest.isEmpty then "└── " else "├── ") ++ displayName e) :: tl) := by
  rw [recurse_entries_cons, if_neg h]
  rcases recurse_entries md rest pp depth with m | tl <;> rfl

theorem FS.safeList_mem {cs : List (String × FS)} (h : FS.safeList cs = true)
    {c : String × FS} (hm : c ∈ cs) : c.2.safe = true := by
  induction cs with
  | nil => cases hm
  | cons d ds ih =>
    rw [FS.safeList, Bool.and_eq_true] at h
    rcases List.mem_cons.mp hm with hm | hm
    · subst hm; exact h.1
    · exact ih h.2 hm

theorem mem_sortEntries {pc : Entry × FS} {l : List (Entry × FS)} :
    pc ∈ sortEntries l ↔ pc ∈ l :=
  (List.perm_insertionSort entRel l).mem_iff

theorem mem_of_ok_listing (cs : List (String × FS)) (p : String)
    {l : List (Entry × FS)} (h : list_entries (FS.dir cs) p = .ok l)
    {pc : Entry × FS} (hm : pc ∈ l) :
    ∃ c ∈ cs, pc = to_pair p c := by
  simp only [list_entries, Except.ok.injEq] at h
  subst h
  rcases List.mem_map.mp (mem_sortEntries.mp hm) with ⟨c, hc, hpc⟩
  exact ⟨c, hc, hpc.symm⟩

theorem recurse_entries_ok (md : Option Nat) (l : List (Entry × FS))
    (H : ∀ pc ∈ l, ∀ p pp d, pc.2.safe = true → FS.isDirNode pc.2 = true →
      ∃ ls, recurse md pc.2 p pp d = .ok ls)
    (Hs : ∀ pc ∈ l, pc.2.safe = true)
    (Hd : ∀ pc ∈ l, pc.1.is_dir = true → FS.isDirNode pc.2 = true)
    (pp : List String) (depth : Nat) :
    ∃ ls, recurse_entries md l pp depth = .ok ls := by
  induction l with
  | nil => exact ⟨[], recurse_entries_nil ..⟩
  | cons pc rest ih =>
    obtain ⟨e, child⟩ := pc
    have hmem : (e, child) ∈ (e, child) :: rest := List.mem_cons_self _ _
    obtain ⟨tl, htl⟩ := ih
      (fun pc hm => H pc (List.mem_cons_of_mem _ hm))
      (fun pc hm => Hs pc (List.mem_cons_of_mem _ hm))
      (fun pc hm => Hd pc (List.mem_cons_of_mem _ hm))
    by_cases hg : e.is_dir = true ∧ e.full_path.isSome = true ∧ e.name ≠ sentinelName
    · obtain ⟨sub, hsub⟩ :=
        H (e, child) hmem (e.full_path.getD "")
          (pp ++ [if rest.isEmpty then "    " else "│   "]) (depth + 1)
          (Hs (e, child) hmem) (Hd (e, child) hmem hg.1)
      rw [recurse_entries_cons, if_pos hg, hsub, htl]
      exact ⟨_, rfl⟩
    · rw [recurse_entries_cons_noRec hg, htl]
      exact ⟨_, rfl⟩

theorem recurse_ok_of_safe (node : FS) :
    ∀ md p pp depth, node.safe = true → FS.isDirNode node = true →
      ∃ ls, recurse md node p pp depth = .ok ls := by
  induction node using FS.inductionOn with
  | hfile => intro md p pp depth _ hd; simp [FS.isDirNode] at hd
  | hlink => intro md p pp depth _ hd; simp [FS.isDirNode] at hd
  | herr => intro md p pp depth hs _; simp [FS.safe] at hs
  | hden =>
    intro md p pp depth _ _
    cases hdr : depth_reached md depth with
    | true => exact ⟨[], by rw [recurse_eq, hdr]; rfl⟩
    | false => exact ⟨_, recurse_dirDenied md depth p pp hdr⟩
  | hdir cs ih =>
    intro md p pp depth hs _
    cases hdr : depth_reached md depth with
    | true => exact ⟨[], by rw [recurse_eq, hdr]; rfl⟩
    | false =>
      have hls : list_entries (FS.dir cs) p = .ok (sortEntries (cs.map (to_pair p))) := rfl
      obtain ⟨ls, hok⟩ := recurse_entries_ok md (sortEntries (cs.map (to_pair p)))
        (fun pc hm => by
          obtain ⟨c, hc, hpc⟩ := mem_of_ok_listing cs p hls hm
          subst hpc
          exact fun p' pp' d' => ih c hc md p' pp' d')
        (fun pc hm => by
          obtain ⟨c, hc, hpc⟩ := mem_of_ok_listing cs p hls hm
          subst hpc
          exact FS.safeList_mem (by rw [FS.safe] at hs; exact hs) hc)
        (fun pc hm hd => by
          obtain ⟨c, hc, hpc⟩ := mem_of_ok_listing cs p hls hm
          subst hpc
          exact hd)
        pp depth
      exact ⟨ls, by rw [recurse_eq, hdr]; simpa [list_entries] using hok⟩

theorem recurse_entries_none_depth {l : List (Entry × FS)}
    (H : ∀ pc ∈ l, ∀ p pp d d', recurse none pc.2 p pp d = recurse none pc.2 p pp d')
    (pp : List String) (d d' : Nat) :
    recurse_entries none l pp d = recurse_entries none l pp d' := by
  induction l with
  | nil => rw [recurse_entries_nil, recurse_entries_nil]
  | cons pc rest ih =>
    obtain ⟨e, child⟩ := pc
    rw [recurse_entries_cons, recurse_entries_cons,
      H (e, child) (List.mem_cons_self _ _) (e.full_path.getD "")
        (pp ++ [if rest.isEmpty then "    " else "│   "]) (d + 1) (d' + 1),
      ih (fun pc hm => H pc (List.mem_cons_of_mem _ hm))]

theorem recurse_none_depth (node : FS) :
    ∀ p pp d d', recurse none node p pp d = recurse none node p pp d' := by
  induction node using FS.inductionOn with
  | hfile => intro p pp d d'; rw [recurse_eq, recurse_eq]; rfl
  | hlink => intro p pp d d'; rw [recurse_eq, recurse_eq]; rfl
  | herr => intro p pp d d'; rw [recurse_eq, recurse_eq]; rfl
  | hden =>
    intro p pp d d'
    rw [recurse_dirDenied none d p pp rfl, recurse_dirDenied none d' p pp rfl]
  | hdir cs ih =>
    intro p pp d d'
    rw [recurse_eq, recurse_eq]
    simp only [depth_reached, Bool.false_eq_true, if_false, list_entries]
    exact recurse_entries_none_depth
      (fun pc hm => by
        obtain ⟨c, hc, hpc⟩ := mem_of_ok_listing cs p rfl hm
        subst hpc
        exact ih c hc) pp d d'

theorem recurse_entries_limit (l : List (Entry × FS)) (pp : List String) (d : Nat) :
    recurse_entries (some (d + 1)) l pp d = .ok (flatRender pp l) := by
  induction l with
  | nil => rw [recurse_entries_nil]; rfl
  | cons pc rest ih =>
    obtain ⟨e, child⟩ := pc
    have hsub : (if e.is_dir = true ∧ e.full_path.isSome = true ∧ e.name ≠ sentinelName then
        recurse (some (d + 1)) child (e.full_path.getD "")
          (pp ++ [if rest.isEmpty then "    " else "│   "]) (d + 1)
      else .ok []) = Except.ok ([] : List String) := by
      split
      · rw [recurse_eq]
        have : depth_reached (some (d + 1)) (d + 1) = true := by
          simp [depth_reached]
        rw [this]
        rfl
      · rfl
    rw [recurse_entries_cons, hsub, ih]
    rfl

theorem specRecurse_dirDenied (md : Option Nat) (depth : Nat) (p : String)
    (flags : List Bool) (h : depth_reached md depth = false) :
    specRecurse md FS.dirDenied p flags depth =
      .ok [String.join (flags.map flagToken) ++ "└── " ++ sentinelName] := by
  rw [specRecurse_eq, h]
  simp only [Bool.false_eq_true, if_false, list_entries]
  rw [specEntries_cons]
  rw [if_neg (by simp [permSentinel])]
  rw [specEntries_nil]
  rfl

theorem specEntries_agree {md : Option Nat} {l : List (Entry × FS)}
    (H : ∀ pc ∈ l, ∀ p flags d,
      recurse md pc.2 p (flags.map flagToken) d = specRecurse md pc.2 p flags d)
    (flags : List Bool) (d : Nat) :
    recurse_entries md l (flags.map flagToken) d = specEntries md l flags d := by
  induction l with
  | nil => rw [recurse_entries_nil, specEntries_nil]
  | cons pc rest ih =>
    obtain ⟨e, child⟩ := pc
    have hmap : (flags.map flagToken) ++ [if rest.isEmpty then "    " else "│   "] =
        (flags ++ [rest.isEmpty]).map flagToken := by
      rw [List.map_append]
      rfl
    rw [recurse_entries_cons, specEntries_cons, hmap,
      H (e, child) (List.mem_cons_self _ _) (e.full_path.getD "") (flags ++ [rest.isEmpty]) (d + 1),
      ih (fun pc hm => H pc (List.mem_cons_of_mem _ hm))]

theorem recurse_agrees_specRecurse (node : FS) :
    ∀ md p flags d, recurse md node p (flags.map flagToken) d = specRecurse md node p flags d := by
  induction node using FS.inductionOn with
  | hfile =>
    intro md p flags d
    rw [recurse_eq, specRecurse_eq]
    cases depth_reached md d <;> rfl
  | hlink =>
    intro md p flags d
    rw [recurse_eq, specRecurse_eq]
    cases depth_reached md d <;> rfl
  | herr =>
    intro md p flags d
    rw [recurse_eq, specRecurse_eq]
    cases depth_reached md d <;> rfl
  | hden =>
    intro md p flags d
    cases hdr : depth_reached md d with
    | true => rw [recurse_eq, specRecurse_eq, hdr]; rfl
    | false =>
      rw [recurse_dirDenied md d p (flags.map flagToken) hdr,
        specRecurse_dirDenied md d p flags hdr]
  | hdir cs ih =>
    intro md p flags d
    rw [recurse_eq, specRecurse_eq]
    cases hdr : depth_reached md d with
    | true => rfl
    | false =>
      simp only [Bool.false_eq_true, if_false, list_entries]
      exact specEntries_agree
        (fun pc hm => by
          obtain ⟨c, hc, hpc⟩ := mem_of_ok_listing cs p rfl hm
          subst hpc
          exact ih c hc md) flags d


/-- C1 counterexample: on a root whose enumeration raises
`PermissionError`, `build_tree_lines` does not propagate a fatal error;
it returns the root line together with a `[permission denied]` sentinel
child, contradicting the claim as stated. -/
theorem c1_root_denied_counterexample :
    build_tree_lines FS.dirDenied "/restricted" none =
      Except.ok ["restricted/", "└── [permission denied]"] := by
  unfold build_tree_lines
  rw [recurse_dirDenied none 0 "/restricted" [] rfl]
  rfl

/-- C1 amended: if enumerating the root itself fails due to access
restriction, `build_tree_lines` recovers locally exactly as for a
nested directory — the output is the root line plus the single
sentinel child, not an error; only a non-permission enumeration
failure of the root (for example a vanished root) propagates as a
fatal error for that invocation. -/
theorem c1_root_denied_amended (p : String) :
    build_tree_lines FS.dirDenied p none =
      Except.ok [basename p ++ "/", "└── " ++ sentinelName] ∧
    build_tree_lines FS.dirError p none = Except.error "OSError" := by
  constructor
  · unfold build_tree_lines
    rw [recurse_dirDenied none 0 p [] rfl]
    rfl
  · unfold build_tree_lines
    rw [recurse_eq]
    rfl


theorem rank_zero_iff_dir (e : Entry) : rank e = 0 ↔ e.is_dir = true := by
  cases h : e.is_dir <;> simp [rank, h]

theorem rank_congr_dir {a b : Entry} (h : a.is_dir = b.is_dir) : rank a = rank b := by
  rw [rank, rank, h]

/-- C3: for every directory listed during the walk, the children
returned by `list_entries` are exactly a permutation of the scanned
children, ordered so that every directory precedes every
non-directory, and within the two groups by case-insensitive
lexicographic name order; directory-vs-file ordering always dominates
name ordering. -/
theorem c3_listing_sorted (cs : List (String × FS)) (p : String) (l : List (Entry × FS))
    (h : list_entries (FS.dir cs) p = .ok l) :
    l.Sorted entRel ∧ l.Perm (cs.map (to_pair p)) ∧
    l.Pairwise (fun a b => b.1.is_dir = true → a.1.is_dir = true) ∧
    l.Pairwise (fun a b => a.1.is_dir = b.1.is_dir → pyLower a.1.name ≤ pyLower b.1.name) := by
  simp only [list_entries, Except.ok.injEq] at h
  subst h
  refine ⟨List.sorted_insertionSort entRel _, List.perm_insertionSort entRel _, ?_, ?_⟩
  · refine (List.sorted_insertionSort entRel _).imp ?_
    intro a b hab hb
    rcases hab with h1 | ⟨h1, _⟩
    · have : rank b.1 = 0 := (rank_zero_iff_dir b.1).mpr hb
      omega
    · have : rank b.1 = 0 := (rank_zero_iff_dir b.1).mpr hb
      exact (rank_zero_iff_dir a.1).mp (by omega)
  · refine (List.sorted_insertionSort entRel _).imp ?_
    intro a b hab heq
    rcases hab with h1 | ⟨_, h2⟩
    · have := rank_congr_dir heq
      omega
    · exact h2

/-- C4: with `max_depth = 0` the output of `build_tree_lines` is
exactly the root line for every root; with `max_depth = 1` the root's
immediate children each contribute exactly their own line and nothing
below them is listed; with `max_depth = None` the depth counter never
stops the recursion (the walk is independent of the depth counter),
and a blank input parses to `None`. -/
theorem c4_depth_limit :
    (∀ root p, build_tree_lines root p (some 0) = .ok [basename p ++ "/"]) ∧
    (∀ cs p, build_tree_lines (FS.dir cs) p (some 1) =
      .ok ((basename p ++ "/") :: flatRender [] (sortEntries (cs.map (to_pair p))))) ∧
    (∀ node p pp d d', recurse none node p pp d = recurse none node p pp d') ∧
    parse_depth "" = ⟨none, false⟩ := by
  refine ⟨?_, ?_, fun node => recurse_none_depth node, rfl⟩
  · intro root p
    unfold build_tree_lines
    rw [recurse_eq]
    rfl
  · intro cs p
    unfold build_tree_lines
    rw [recurse_eq]
    show (match recurse_entries (some (0 + 1)) (sortEntries (cs.map (to_pair p))) [] 0 with
      | Except.error msg => Except.error msg
      | Except.ok ls => Except.ok ((basename p ++ "/") :: ls)) =
      Except.ok ((basename p ++ "/") :: flatRender [] (sortEntries (cs.map (to_pair p))))
    rw [recurse_entries_limit (sortEntries (cs.map (to_pair p))) [] 0]

/-- C5: every rendered child line equals prefix + connector + display
name, the connector being `"└── "` exactly for the last child of its
parent's sorted listing and `"├── "` otherwise, and the prefix being
one token per ancestor level — four spaces if that ancestor was itself
last at its level, else `"│   "`: the code's walk agrees with
`specRecurse`, which renders from the ancestor was-last flags exactly
as the claim describes, at every node and in `build_tree_lines`. -/
theorem c5_line_shape :
    (∀ node md p flags d,
      recurse md node p (flags.map flagToken) d = specRecurse md node p flags d) ∧
    (∀ root p md, build_tree_lines root p md =
      (specRecurse md root p [] 0).map (fun ls => (basename p ++ "/") :: ls)) := by
  constructor
  · exact fun node md p flags d => recurse_agrees_specRecurse node md p flags d
  · intro root p md
    unfold build_tree_lines
    have h := recurse_agrees_specRecurse root md p [] 0
    rw [show (([] : List Bool).map flagToken) = ([] : List String) from rfl] at h
    rw [h]
    rcases specRecurse md root p [] 0 with m | ls <;> rfl

/-- C6: a symlink child is never recursed into regardless of any
depth limit — it contributes exactly its own line and the walk
continues with its siblings — and its rendered line always ends with
`" -> (symlink)"`. -/
theorem c6_symlink_no_recursion (md : Option Nat) (e : Entry) (c : FS)
    (rest : List (Entry × FS)) (pp : List String) (d : Nat)
    (hl : e.is_link = true) (hd : e.is_dir = false) :
    displayName e = e.name ++ " -> (symlink)" ∧
    recurse_entries md ((e, c) :: rest) pp d =
      (recurse_entries md rest pp d).map
        (fun tl => (String.join pp ++ (if rest.isEmpty then "└── " else "├── ") ++
          (e.name ++ " -> (symlink)")) :: tl) := by
  have hdisp : displayName e = e.name ++ " -> (symlink)" := by
    rw [displayName]
    simp [hd, hl]
  refine ⟨hdisp, ?_⟩
  rw [recurse_entries_cons_noRec (by simp [hd]) md rest pp d, hdisp]

/-- C7: for every non-blank depth input that is non-numeric or parses
to a negative integer, `parse_depth` falls back to unlimited depth
(`none`) and surfaces the warning; it never fails. -/
theorem c7_invalid_depth (s : String) (hne : pyStrip s ≠ "")
    (hbad : pyInt (pyStrip s) = none ∨ ∃ n : Int, pyInt (pyStrip s) = some n ∧ n < 0) :
    parse_depth s = ⟨none, true⟩ := by
  unfold parse_depth
  rw [if_neg hne]
  rcases hbad with h | ⟨n, h, hn⟩
  · rw [h]
  · rw [h]
    simp only [if_pos hn]

/-- C8: whenever `build_tree_lines` succeeds, its first line is the
root directory's base name suffixed with `"/"`, and for a root
directory with no children the entire output is exactly that one
line. -/
theorem c8_root_line :
    (∀ root p md l, build_tree_lines root p md = .ok l →
      l.head? = some (basename p ++ "/")) ∧
    (∀ p md, build_tree_lines (FS.dir []) p md = .ok [basename p ++ "/"]) := by
  constructor
  · intro root p md l h
    unfold build_tree_lines at h
    rcases hr : recurse md root p [] 0 with m | ls
    · rw [hr] at h
      cases h
    · rw [hr] at h
      cases h
      rfl
  · intro p md
    unfold build_tree_lines
    rw [recurse_eq]
    cases hdr : depth_reached md 0 with
    | true => rfl
    | false =>
      show (match recurse_entries md [] [] 0 with
        | Except.error msg => Except.error msg
        | Except.ok ls => Except.ok ((basename p ++ "/") :: ls)) =
        Except.ok [basename p ++ "/"]
      rw [recurse_entries_nil]

/-- C9: `write_output` produces the file named
`"<rootDirBaseName> repo.txt"` with content the newline-joined lines
plus a single trailing newline (the file is opened with
`newline="\n"`, so `"\n"` is used regardless of platform), and it
returns that file name (the first component). -/
theorem c9_write_output (lines : List String) (p : String) :
    write_output lines p = (basename p ++ " repo.txt", String.intercalate "\n" lines ++ "\n") ∧
    (∃ s, (write_output lines p).2 = s ++ "\n") := by
  exact ⟨rfl, ⟨String.intercalate "\n" lines, rfl⟩⟩

/-- C10: a real, accessible directory entry literally named
`[permission denied]` is conflated with the sentinel: it is reported
as a directory by scandir, yet its rendered line omits the `"/"`
suffix and it is never recursed into — whatever it contains — because
the sentinel is detected by string comparison on the name. -/
theorem c10_sentinel_name_conflated (md : Option Nat) (inner : List (String × FS))
    (p : String) (pp : List String) (d : Nat) (rest : List (Entry × FS)) :
    (child_entry p (sentinelName, FS.dir inner)).is_dir = true ∧
    displayName (child_entry p (sentinelName, FS.dir inner)) = sentinelName ∧
    recurse_entries md ((child_entry p (sentinelName, FS.dir inner), FS.dir inner) :: rest) pp d =
      (recurse_entries md rest pp d).map
        (fun tl => (String.join pp ++ (if rest.isEmpty then "└── " else "├── ") ++ sentinelName)
          :: tl) := by
  have hdisp : displayName (child_entry p (sentinelName, FS.dir inner)) = sentinelName := by
    rw [displayName]
    simp [child_entry, FS.isDirNode, FS.isLinkNode]
  refine ⟨rfl, hdisp, ?_⟩
  rw [recurse_entries_cons_noRec (by simp [child_entry]) md rest pp d, hdisp]

/-- C2: for every non-root directory whose enumeration fails due to
access restriction, the listing is the single synthetic child
`[permission denied]` (not a directory, not a symlink, no path), the
walk emits for it exactly one line at that position and recurses no
further, rendering of the following siblings continues unchanged, and
a walk over any tree free of non-permission errors always succeeds. -/
theorem c2_denied_recovery (md : Option Nat) (p : String) (pp : List String) (d : Nat)
    (hd : depth_reached md d = false) :
    (list_entries FS.dirDenied p = .ok [(permSentinel, FS.file)] ∧
      permSentinel.name = sentinelName ∧ permSentinel.is_dir = false ∧
      permSentinel.is_link = false ∧ permSentinel.full_path = none) ∧
    recurse md FS.dirDenied p pp d = .ok [String.join pp ++ "└── " ++ sentinelName] ∧
    (∀ n rest, n ≠ sentinelName → depth_reached md (d + 1) = false →
      recurse_entries md ((child_entry p (n, FS.dirDenied), FS.dirDenied) :: rest) pp d =
        (recurse_entries md rest pp d).map
          (fun tl =>
            (String.join pp ++ (if rest.isEmpty then "└── " else "├── ") ++ (n ++ "/")) ::
              (String.join (pp ++ [if rest.isEmpty then "    " else "│   "]) ++ "└── " ++
                sentinelName) :: tl)) ∧
    (∀ node, FS.safe node = true → FS.isDirNode node = true →
      ∃ ls, recurse md node p pp d = .ok ls) := by
  refine ⟨⟨rfl, rfl, rfl, rfl, rfl⟩, recurse_dirDenied md d p pp hd, ?_, ?_⟩
  · intro n rest hn hd2
    have hg : (child_entry p (n, FS.dirDenied)).is_dir = true ∧
        (child_entry p (n, FS.dirDenied)).full_path.isSome = true ∧
        (child_entry p (n, FS.dirDenied)).name ≠ sentinelName := ⟨rfl, rfl, hn⟩
    rw [recurse_entries_cons, if_pos hg,
      recurse_dirDenied md (d + 1) ((child_entry p (n, FS.dirDenied)).full_path.getD "")
        (pp ++ [if rest.isEmpty then "    " else "│   "]) hd2]
    have hdisp : displayName (child_entry p (n, FS.dirDenied)) = n ++ "/" := by
      rw [displayName]
      simp [child_entry, FS.isDirNode, FS.isLinkNode, hn]
    rw [hdisp]
    rcases recurse_entries md rest pp d with m | tl <;> rfl
  · intro node hs hdn
    exact recurse_ok_of_safe node md p pp d hs hdn

/-- Witness for C2 at a concrete input. -/
theorem c2_witness :
    (list_entries FS.dirDenied "/r" = .ok [(permSentinel, FS.file)] ∧
      permSentinel.name = sentinelName ∧ permSentinel.is_dir = false ∧
      permSentinel.is_link = false ∧ permSentinel.full_path = none) ∧
    recurse none FS.dirDenied "/r" [] 0 =
      .ok [String.join [] ++ "└── " ++ sentinelName] ∧
    recurse_entries none [(child_entry "/r" ("locked", FS.dirDenied), FS.dirDenied)] [] 0 =
      (recurse_entries none ([] : List (Entry × FS)) [] 0).map
        (fun tl =>
          (String.join [] ++
              (if ([] : List (Entry × FS)).isEmpty then "└── " else "├── ") ++ ("locked" ++ "/")) ::
            (String.join ([] ++ [if ([] : List (Entry × FS)).isEmpty then "    " else "│   "]) ++
              "└── " ++ sentinelName) :: tl) ∧
    (∃ ls, recurse none (FS.dir [("ok", FS.file)]) "/r" [] 0 = .ok ls) := by
  have h := c2_denied_recovery none "/r" [] 0 rfl
  exact ⟨h.1, h.2.1, h.2.2.1 "locked" [] (by decide) rfl,
    h.2.2.2 (FS.dir [("ok", FS.file)]) rfl rfl⟩

/-- Witness for C3 at a concrete input: the spec's own example, a
file `b` and a directory `A` in the same parent — `A` sorts first. -/
theorem c3_witness :
    ([(⟨"A", true, false, some "/p/A"⟩, FS.dir []), (⟨"b", false, false, some "/p/b"⟩, FS.file)] :
      List (Entry × FS)).Sorted entRel ∧
    ([(⟨"A", true, false, some "/p/A"⟩, FS.dir []), (⟨"b", false, false, some "/p/b"⟩, FS.file)] :
      List (Entry × FS)).Perm ([("b", FS.file), ("A", FS.dir [])].map (to_pair "/p")) ∧
    ([(⟨"A", true, false, some "/p/A"⟩, FS.dir []), (⟨"b", false, false, some "/p/b"⟩, FS.file)] :
      List (Entry × FS)).Pairwise (fun a b => b.1.is_dir = true → a.1.is_dir = true) ∧
    ([(⟨"A", true, false, some "/p/A"⟩, FS.dir []), (⟨"b", false, false, some "/p/b"⟩, FS.file)] :
      List (Entry × FS)).Pairwise
        (fun a b => a.1.is_dir = b.1.is_dir → pyLower a.1.name ≤ pyLower b.1.name) :=
  c3_listing_sorted [("b", FS.file), ("A", FS.dir [])] "/p" _ rfl

/-- Witness for C6 at a concrete symlink entry. -/
theorem c6_witness :
    displayName ⟨"z", false, true, some "/p/z"⟩ = "z" ++ " -> (symlink)" ∧
    recurse_entries none [(⟨"z", false, true, some "/p/z"⟩, FS.link)] [] 0 =
      (recurse_entries none ([] : List (Entry × FS)) [] 0).map
        (fun tl => (String.join [] ++
          (if ([] : List (Entry × FS)).isEmpty then "└── " else "├── ") ++
          ("z" ++ " -> (symlink)")) :: tl) :=
  c6_symlink_no_recursion none ⟨"z", false, true, some "/p/z"⟩ FS.link [] [] 0 rfl rfl

/-- Witness for C7 at the concrete input "-3". -/
theorem c7_witness : parse_depth "-3" = ⟨none, true⟩ :=
  c7_invalid_depth "-3" (by decide) (Or.inr ⟨-3, rfl, by decide⟩)

/-- Witness for C8 at a concrete empty root. -/
theorem c8_witness : (["r/"] : List String).head? = some (basename "/r" ++ "/") :=
  c8_root_line.1 (FS.dir []) "/r" none ["r/"]
    (by simp [build_tree_lines, recurse, recurse_entries, list_entries, depth_reached,
      basename, sortEntries])
